import Mathlib

/-!
Verification of the community e-commerce backend (C++ sources under
`src/Backend/`).  The embedding models C++ `std::string` values as `List Char`,
`double` prices/balances as exact rationals, and the 32-bit `unsigned int`
quantities as natural numbers reduced modulo `2 ^ 32` wherever the C++ code
performs unsigned arithmetic.
-/

/-- C++ `std::string`, modelled as its character sequence. -/
abbrev Str := List Char

/-- Width of C++ `unsigned int`: quantities wrap modulo this bound. -/
def U32 : Nat := 4294967296

namespace Backend

/-! ### Cart data model (src/Backend/Cart.h, Cart.cpp) -/

/-- Model of `CartItem` from Cart.h: productId, display name, unit price, quantity.
Price (`double` in C++) is modelled as an exact rational. -/
structure CartItem where
  productId : Str
  name : Str
  price : ℚ
  quantity : Nat
  deriving DecidableEq, Repr

/-- Model of `CartItem::subtotal`: `price * static_cast<double>(quantity)`. -/
def CartItem.subtotal (e : CartItem) : ℚ := e.price * (e.quantity : ℚ)

/-- Model of `Cart::findItem`: linear scan returning the first entry whose
`productId` matches, if any (`std::find_if`). -/
def findItem : List CartItem → Str → Option CartItem
  | [], _ => none
  | e :: rest, pid => if e.productId = pid then some e else findItem rest pid

/-- Model of `Cart::addItem`: if an entry with the same productId exists, the first such
entry's quantity is incremented by `item.quantity` (unsigned 32-bit addition);
otherwise the item is appended only when `item.quantity > 0`. -/
def addItem : List CartItem → CartItem → List CartItem
  | [], item => if 0 < item.quantity then [item] else []
  | e :: rest, item =>
    if e.productId = item.productId then
      { e with quantity := (e.quantity + item.quantity) % U32 } :: rest
    else
      e :: addItem rest item

/-- The entries surviving `Cart::removeItem`'s `std::remove_if`/`erase`:
every entry whose productId matches is dropped. -/
def eraseAll : List CartItem → Str → List CartItem
  | [], _ => []
  | e :: rest, pid =>
    if e.productId = pid then eraseAll rest pid else e :: eraseAll rest pid

/-- Model of `Cart::removeItem`: erases all matching entries and reports whether the
size changed.  Returned as (new cart state, boolean result). -/
def removeItem (c : List CartItem) (pid : Str) : List CartItem × Bool :=
  let remaining := eraseAll c pid
  (remaining, decide (remaining.length ≠ c.length))

/-- In-place quantity assignment on the first matching entry
(`existing->quantity = quantity` through the pointer found by `findItem`). -/
def setQty : List CartItem → Str → Nat → List CartItem
  | [], _, _ => []
  | e :: rest, pid, q =>
    if e.productId = pid then { e with quantity := q } :: rest
    else e :: setQty rest pid q

/-- Model of `Cart::updateQuantity`: false if the id is absent; with quantity 0 it
delegates to `removeItem` and returns true; otherwise it assigns the quantity
on the found entry and returns true. -/
def updateQuantity (c : List CartItem) (pid : Str) (q : Nat) :
    List CartItem × Bool :=
  match findItem c pid with
  | none => (c, false)
  | some _ =>
    if q = 0 then ((removeItem c pid).1, true)
    else (setQty c pid q, true)

/-- Model of `Cart::clear`. -/
def clearCart (_c : List CartItem) : List CartItem := []

/-- Model of `Cart::isEmpty`. -/
def isEmpty (c : List CartItem) : Bool := c.isEmpty

/-- Model of `Cart::getTotal`: left-to-right accumulation of the subtotals. -/
def getTotal (c : List CartItem) : ℚ :=
  c.foldl (fun total e => total + e.subtotal) 0

/-! ### PurchaseHistory (src/Backend/PurchaseHistory.h, PurchaseHistory.cpp) -/

/-- Model of `PurchaseRecord` from PurchaseHistory.h: id, name, price, quantity. -/
structure PurchaseRecord where
  id : Str
  name : Str
  price : ℚ
  quantity : Nat
  deriving DecidableEq, Repr

/-- Model of `PurchaseRecord::subtotal`. -/
def PurchaseRecord.subtotal (r : PurchaseRecord) : ℚ :=
  r.price * (r.quantity : ℚ)

/-- Model of `PurchaseHistory::recordPurchase`: `purchases.push_back(item)`. -/
def recordPurchase (h : List PurchaseRecord) (r : PurchaseRecord) :
    List PurchaseRecord :=
  h ++ [r]

/-- Model of `PurchaseHistory::recordPurchases`: bulk insert at the end. -/
def recordPurchases (h : List PurchaseRecord) (rs : List PurchaseRecord) :
    List PurchaseRecord :=
  h ++ rs

/-- Model of `PurchaseHistory::hasPurchase`: `std::any_of` over the stored ids. -/
def hasPurchase (h : List PurchaseRecord) (itemId : Str) : Bool :=
  h.any (fun stored => stored.id = itemId)

/-- Model of `PurchaseHistory::getTotalSpent`. -/
def getTotalSpent (h : List PurchaseRecord) : ℚ :=
  h.foldl (fun total r => total + r.subtotal) 0

/-! ### Shared string helpers

`SettingsService::trim` / the inline trimming in `SearchService::searchCatalog`
strip the character set `" \t\n\r"` from both ends; `::tolower` in the default
locale lowercases exactly the ASCII letters `A`..`Z`. -/

/-- Membership in the C++ trim set `" \t\n\r"`. -/
def isTrimCh (ch : Char) : Bool :=
  ch = ' ' || ch = '\t' || ch = '\n' || ch = '\r'

/-- Trim the character set `" \t\n\r"` from both ends
(`find_first_not_of` / `find_last_not_of`). -/
def trim (s : Str) : Str :=
  ((s.dropWhile isTrimCh).reverse.dropWhile isTrimCh).reverse

/-- Model of `::tolower` on one character in the default locale: `A`..`Z` map to
`a`..`z`, everything else is unchanged. -/
def toLowerCh (ch : Char) : Char :=
  if 'A' ≤ ch ∧ ch ≤ 'Z' then Char.ofNat (ch.toNat + 32) else ch

/-- Model of `std::transform(..., ::tolower)` over a whole string. -/
def toLowerStr (s : Str) : Str := s.map toLowerCh

/-- Does `needle` occur at the very start of `hay`?  (Building block for
`std::string::find`.) -/
def begMatch : Str → Str → Bool
  | [], _ => true
  | _ :: _, [] => false
  | n :: ns, h :: hs => n = h && begMatch ns hs

/-- Model of `hay.find(needle) != std::string::npos`: `needle` occurs contiguously
somewhere inside `hay`. -/
def hasSub (needle : Str) : Str → Bool
  | [] => needle.isEmpty
  | h :: hs => begMatch needle (h :: hs) || hasSub needle hs

/-! ### SearchService (src/Backend/SearchService.h, SearchService.cpp) -/

/-- Model of `CatalogItem`: id, name, price, description. -/
structure CatalogItem where
  id : Str
  name : Str
  price : ℚ
  description : Str
  deriving DecidableEq, Repr

/-- The static `SearchService::CATALOG` array (15 fixed items). -/
def CATALOG : List CatalogItem :=
  [ ⟨"ITEM001".data, "Laptop Pro 15".data, 99999/100,
      "High-performance laptop with 16GB RAM and SSD".data⟩,
    ⟨"ITEM002".data, "Wireless Mouse".data, 2999/100,
      "Ergonomic wireless mouse with long battery life".data⟩,
    ⟨"ITEM003".data, "Mechanical Keyboard".data, 7999/100,
      "RGB backlit mechanical keyboard with blue switches".data⟩,
    ⟨"ITEM004".data, "4K Monitor".data, 29999/100,
      "Ultra sharp IPS panel with 95% DCI-P3 coverage".data⟩,
    ⟨"ITEM005".data, "USB-C Hub".data, 4999/100,
      "7-in-1 USB-C hub with HDMI and SD card reader".data⟩,
    ⟨"ITEM006".data, "Monitor Stand".data, 3999/100,
      "Adjustable monitor stand with cable management".data⟩,
    ⟨"ITEM007".data, "Webcam HD".data, 7999/100,
      "1080p HD webcam with built-in microphone".data⟩,
    ⟨"ITEM008".data, "Laptop Stand".data, 5999/100,
      "Aluminum laptop stand for better ergonomics".data⟩,
    ⟨"ITEM009".data, "USB-C Cable".data, 1999/100,
      "6ft USB-C to USB-C charging cable".data⟩,
    ⟨"ITEM010".data, "Gaming Headset".data, 14999/100,
      "Wireless gaming headset with surround sound".data⟩,
    ⟨"ITEM011".data, "External Hard Drive".data, 8999/100,
      "2TB portable external hard drive".data⟩,
    ⟨"ITEM012".data, "Wireless Charger".data, 3499/100,
      "Fast wireless charging pad for phones".data⟩,
    ⟨"ITEM013".data, "Laptop Sleeve".data, 2499/100,
      "Protective laptop sleeve with padding".data⟩,
    ⟨"ITEM014".data, "HDMI Cable".data, 1499/100,
      "10ft high-speed HDMI 2.0 cable".data⟩,
    ⟨"ITEM015".data, "Mouse Pad".data, 2999/100,
      "Large gaming mouse pad with RGB lighting".data⟩ ]

/-- One loop iteration's match test in `SearchService::searchCatalog`: the
lowercased query occurs inside the lowercased id, name or description. -/
def catalogMatch (item : CatalogItem) (nq : Str) : Bool :=
  hasSub nq (toLowerStr item.id) || hasSub nq (toLowerStr item.name) ||
    hasSub nq (toLowerStr item.description)

/-- Model of `SearchService::searchCatalog`: trim the query; empty → no results;
otherwise lowercase it and keep the catalog items (in definition order)
whose id, name or description contains it. -/
def searchCatalog (query : Str) : List CatalogItem :=
  let trimmed := trim query
  if trimmed.isEmpty then []
  else
    let nq := toLowerStr trimmed
    CATALOG.filter (fun item => catalogMatch item nq)

/-- Model of `SearchService::getItemById`: first exact, case-sensitive id match. -/
def getItemById : List CatalogItem → Str → Option CatalogItem
  | [], _ => none
  | item :: rest, itemId =>
    if item.id = itemId then some item else getItemById rest itemId

/-! ### SettingsService validators (src/Backend/SettingsService.h, .cpp) -/

/-- Model of `ValidationResult`: valid flag, normalized value, error message. -/
structure ValidationResult where
  valid : Bool
  value : Str
  error : Str
  deriving DecidableEq, Repr

/-- Model of `SettingsService::validateUsername`. -/
def validateUsername (username : Str) : ValidationResult :=
  if username.isEmpty then ⟨false, [], "Username is required".data⟩
  else
    let trimmed := trim username
    if trimmed.length < 3 ∨ 30 < trimmed.length then
      ⟨false, [], "Username must be 3-30 characters".data⟩
    else ⟨true, trimmed, []⟩

/-- A character admitted by the regex class `[^\s@]`: not whitespace
(`\s` = space, `\t`, `\n`, `\v`, `\f`, `\r`) and not `@`. -/
def emailChar (ch : Char) : Bool :=
  !(ch = ' ' || ch = '\t' || ch = '\n' || ch = '\x0b' || ch = '\x0c' ||
      ch = '\r') && !(ch = '@')

/-- Not the `@` separator (scanning for the first `@`). -/
def notAt (ch : Char) : Bool := ch ≠ '@'

/-- Model of `std::regex_match(s, regex("[^\s@]+@[^\s@]+\.[^\s@]+"))`, decided
directly: the part before the first `@` is a nonempty run of `[^\s@]`
characters, everything after it is a nonempty run of `[^\s@]` characters
containing a `.` at neither end. -/
def emailOk (s : Str) : Bool :=
  let a := s.takeWhile notAt
  match s.dropWhile notAt with
  | [] => false
  | _ :: r =>
    !a.isEmpty && a.all emailChar && !r.isEmpty && r.all emailChar &&
      ((r.drop 1).dropLast.contains '.')

/-- Model of `SettingsService::validateEmail`. -/
def validateEmail (email : Str) : ValidationResult :=
  if email.isEmpty then ⟨false, [], "Email is required".data⟩
  else
    let lower := toLowerStr (trim email)
    if emailOk lower then ⟨true, lower, []⟩
    else ⟨false, [], "Invalid email format".data⟩

/-- Model of `SettingsService::validatePassword` (note: no upper length bound in the
source, although the test suite requires one). -/
def validatePassword (password : Str) : ValidationResult :=
  if password.isEmpty then ⟨false, [], "Password is required".data⟩
  else if password.length < 6 then
    ⟨false, [], "Password must be at least 6 characters long".data⟩
  else ⟨true, password, []⟩

/-! ### PurchaseService (src/Backend/PurchaseService.h, .cpp) -/

/-- Inventory `Item`: id, name, price, availability. -/
structure Item where
  id : Str
  name : Str
  price : ℚ
  available : Bool
  deriving DecidableEq, Repr

/-- Model of `PurchaseResult`: success flag, message, remaining balance. -/
structure PurchaseResult where
  success : Bool
  message : Str
  remainingBalance : ℚ
  deriving DecidableEq, Repr

/-- Model of `PurchaseService::findItem`: first inventory entry with matching id. -/
def findInvItem : List Item → Str → Option Item
  | [], _ => none
  | item :: rest, itemId =>
    if item.id = itemId then some item else findInvItem rest itemId

/-- Model of `PurchaseService::hasSufficientFunds`: `userBalance >= itemPrice`. -/
def hasSufficientFunds (userBalance itemPrice : ℚ) : Bool :=
  itemPrice ≤ userBalance

/-- Model of `PurchaseService::processPayment`: `userBalance - itemPrice`. -/
def processPayment (userBalance itemPrice : ℚ) : ℚ :=
  userBalance - itemPrice

/-- The default inventory built by `PurchaseService::initializeInventory`. -/
def defaultInventory : List Item :=
  [ ⟨"ITEM001".data, "Laptop".data, 99999/100, true⟩,
    ⟨"ITEM002".data, "Mouse".data, 2999/100, true⟩,
    ⟨"ITEM003".data, "Keyboard".data, 7999/100, true⟩,
    ⟨"ITEM004".data, "Monitor".data, 29999/100, false⟩ ]

/-- Model of `PurchaseService::purchaseItem`.  The C++ function mutates `userBalance`
by reference; the model returns (result, final balance). -/
def purchaseItem (inventory : List Item) (itemId : Str) (userBalance : ℚ) :
    PurchaseResult × ℚ :=
  match findInvItem inventory itemId with
  | none => (⟨false, "Item not found".data, userBalance⟩, userBalance)
  | some foundItem =>
    if !foundItem.available then
      (⟨false, "Item out of stock".data, userBalance⟩, userBalance)
    else if !hasSufficientFunds userBalance foundItem.price then
      (⟨false, "Insufficient funds".data, userBalance⟩, userBalance)
    else
      let newBalance := processPayment userBalance foundItem.price
      (⟨true, "Purchase successful".data, newBalance⟩, newBalance)

/-! ### LoginService (src/Backend/LoginService.h, .cpp) -/

/-- The private `LoginService::User` record. -/
structure LoginUser where
  username : Str
  password : Str
  deriving DecidableEq, Repr

/-- Model of `LoginResult`: success flag, message, username (defaults to ""). -/
structure LoginResult where
  success : Bool
  message : Str
  username : Str
  deriving DecidableEq, Repr

/-- The static `LoginService::validUsers` table. -/
def validUsers : List LoginUser :=
  [ ⟨"validuser".data, "validpass123".data⟩,
    ⟨"admin".data, "admin123".data⟩,
    ⟨"testuser".data, "testpass".data⟩ ]

/-- Model of `LoginService::findUser`: first user with matching username. -/
def findUser : List LoginUser → Str → Option LoginUser
  | [], _ => none
  | u :: rest, uname =>
    if u.username = uname then some u else findUser rest uname

/-- Model of `LoginService::validatePassword` (null pointer → false). -/
def checkPassword (u : Option LoginUser) (password : Str) : Bool :=
  match u with
  | none => false
  | some user => user.password = password

/-- Model of `LoginService::authenticate` over the static user table. -/
def authenticate (username password : Str) : LoginResult :=
  if username.isEmpty then ⟨false, "Username cannot be empty".data, []⟩
  else if password.isEmpty then ⟨false, "Password cannot be empty".data, []⟩
  else
    match findUser validUsers username with
    | none => ⟨false, "Invalid username or password".data, []⟩
    | some user =>
      if !checkPassword (some user) password then
        ⟨false, "Invalid username or password".data, []⟩
      else ⟨true, "Login successful".data, user.username⟩

/-! ### Declarative (spec-side) predicates and demo data used by the claims -/

/-- Declarative substring containment: `needle` occurs contiguously in
`hay`. -/
def SubStr (needle hay : Str) : Prop := ∃ l r, hay = l ++ needle ++ r

/-- The declarative email shape the spec describes: one or more non-space,
non-`@` characters, an `@`, one or more such characters, a `.`, one or more
such characters. -/
def EmailShape (s : Str) : Prop :=
  ∃ a b c : Str, a ≠ [] ∧ b ≠ [] ∧ c ≠ [] ∧
    (∀ ch ∈ a, emailChar ch = true) ∧ (∀ ch ∈ b, emailChar ch = true) ∧
    (∀ ch ∈ c, emailChar ch = true) ∧ s = a ++ '@' :: (b ++ '.' :: c)

/-- Concrete add sequence for the C1 merge scenario. -/
def demoAdds : List CartItem :=
  [ ⟨"ITEM001".data, "Laptop".data, 99999/100, 1⟩,
    ⟨"ITEM001".data, "Laptop".data, 99999/100, 2⟩ ]

end Backend

namespace Backend

/-! ### Lemmas about the Cart operations -/

/-- If no entry matches, every stored productId differs from the probe. -/
theorem findItem_eq_none_iff (c : List CartItem) (pid : Str) :
    findItem c pid = none ↔ ∀ x ∈ c, x.productId ≠ pid := by
  induction c with
  | nil => simp [findItem]
  | cons e rest ih =>
    by_cases h : e.productId = pid
    · simp [findItem, h]
    · simp [findItem, h, ih]

/-- Adding an absent productId with zero quantity does not change the cart. -/
theorem addItem_absent_zero (c : List CartItem) (item : CartItem)
    (habsent : findItem c item.productId = none) (hq : item.quantity = 0) :
    addItem c item = c := by
  induction c with
  | nil => simp [addItem, hq]
  | cons e rest ih =>
    rw [findItem_eq_none_iff] at habsent
    have he : e.productId ≠ item.productId := by
      intro h
      exact habsent e (List.mem_cons_self e rest) h
    rw [addItem, if_neg he]
    rw [findItem_eq_none_iff] at ih
    rw [ih (fun x hx => habsent x (List.mem_cons_of_mem e hx))]

/-- Adding an absent productId with positive quantity appends the item. -/
theorem addItem_absent_pos (c : List CartItem) (item : CartItem)
    (habsent : findItem c item.productId = none) (hq : 0 < item.quantity) :
    addItem c item = c ++ [item] := by
  induction c with
  | nil => simp [addItem, hq]
  | cons e rest ih =>
    rw [findItem_eq_none_iff] at habsent
    have he : e.productId ≠ item.productId := by
      intro h
      exact habsent e (List.mem_cons_self e rest) h
    rw [addItem, if_neg he]
    rw [findItem_eq_none_iff] at ih
    rw [ih (fun x hx => habsent x (List.mem_cons_of_mem e hx))]
    simp

/-- When the productId is already present, `addItem` keeps the sequence of
stored productIds unchanged (pure in-place update). -/
theorem map_productId_addItem_found (c : List CartItem) (item : CartItem)
    (hfound : findItem c item.productId ≠ none) :
    (addItem c item).map (fun x => x.productId) =
      c.map (fun x => x.productId) := by
  induction c with
  | nil => simp [findItem] at hfound
  | cons e rest ih =>
    by_cases h : e.productId = item.productId
    · simp [addItem, h]
    · rw [findItem, if_neg (fun hh => h hh)] at hfound
      simp [addItem, h, ih hfound]

/-- The operation `addItem` preserves distinctness of the stored productIds. -/
theorem nodup_addItem (c : List CartItem) (item : CartItem)
    (h : (c.map (fun x => x.productId)).Nodup) :
    ((addItem c item).map (fun x => x.productId)).Nodup := by
  rcases hf : findItem c item.productId with _ | e
  · by_cases hq : 0 < item.quantity
    · rw [addItem_absent_pos c item hf hq]
      simp only [List.map_append, List.map_cons, List.map_nil]
      rw [(List.perm_append_singleton _ _).nodup_iff, List.nodup_cons]
      refine ⟨?_, h⟩
      intro hmem
      simp only [List.mem_map] at hmem
      rcases hmem with ⟨z, hz, hzx⟩
      rw [findItem_eq_none_iff] at hf
      exact hf z hz hzx
    · have hq0 : item.quantity = 0 := Nat.eq_zero_of_not_pos hq
      rw [addItem_absent_zero c item hf hq0]
      exact h
  · rw [map_productId_addItem_found c item (by rw [hf]; exact fun hh => Option.noConfusion hh)]
    exact h

/-- Restricting to a productId other than the added one, `addItem` does not
change the matching entries. -/
theorem filter_addItem_ne (c : List CartItem) (item : CartItem) (pid : Str)
    (hne : pid ≠ item.productId) :
    (addItem c item).filter (fun x => x.productId = pid) =
      c.filter (fun x => x.productId = pid) := by
  induction c with
  | nil =>
    by_cases hq : 0 < item.quantity <;>
      simp [addItem, hq, Ne.symm hne]
  | cons e rest ih =>
    by_cases h : e.productId = item.productId
    · have hepid : ¬ e.productId = pid := fun hh => hne (hh.symm.trans h)
      simp [addItem, h, hepid, Ne.symm hne]
    · by_cases hep : e.productId = pid <;>
        simp [addItem, h, hep, hne, Ne.symm hne, ih]

/-- Restricting to the added productId, `addItem` rewrites the head of the
matching entries (unsigned-add on its quantity) or appends a fresh entry. -/
theorem filter_addItem_same (c : List CartItem) (item : CartItem) :
    (addItem c item).filter (fun x => x.productId = item.productId) =
      match c.filter (fun x => x.productId = item.productId) with
      | [] => if 0 < item.quantity then [item] else []
      | e :: rest =>
          { e with quantity := (e.quantity + item.quantity) % U32 } :: rest := by
  induction c with
  | nil => by_cases hq : 0 < item.quantity <;> simp [addItem, hq]
  | cons e rest ih =>
    by_cases h : e.productId = item.productId
    · simp [addItem, h]
    · simp [addItem, h, ih]

theorem filter_addItem_same_nil (c : List CartItem) (item : CartItem)
    (h : c.filter (fun x => x.productId = item.productId) = []) :
    (addItem c item).filter (fun x => x.productId = item.productId) =
      if 0 < item.quantity then [item] else [] := by
  rw [filter_addItem_same, h]

theorem filter_addItem_same_cons (c : List CartItem) (item e : CartItem)
    (rest : List CartItem)
    (h : c.filter (fun x => x.productId = item.productId) = e :: rest) :
    (addItem c item).filter (fun x => x.productId = item.productId) =
      { e with quantity := (e.quantity + item.quantity) % U32 } :: rest := by
  rw [filter_addItem_same, h]

/-! ### Lemmas about getTotal -/

theorem foldl_add_subtotal (c : List CartItem) (init : ℚ) :
    c.foldl (fun total e => total + e.subtotal) init =
      init + (c.map CartItem.subtotal).sum := by
  induction c generalizing init with
  | nil => simp
  | cons e rest ih => simp [ih, add_assoc]

/-! ### Claims C6, C7, C8 -/

/-- C6: for every Cart state and every item whose productId has no entry in
the Cart, `addItem` with quantity ≤ 0 leaves the Cart completely unchanged
(a silent no-op, no entry created). -/
theorem claim6_addItem_nonpositive_noop (c : List CartItem) (item : CartItem)
    (habsent : findItem c item.productId = none) (hq : item.quantity ≤ 0) :
    addItem c item = c := by
  exact addItem_absent_zero c item habsent (Nat.le_zero.mp hq)

theorem claim6_witness :
    findItem [(⟨"ITEM002".data, "Mouse".data, 2999/100, 2⟩ : CartItem)]
        "ITEM001".data = none ∧
      addItem [(⟨"ITEM002".data, "Mouse".data, 2999/100, 2⟩ : CartItem)]
        ⟨"ITEM001".data, "Laptop".data, 99999/100, 0⟩ =
      [(⟨"ITEM002".data, "Mouse".data, 2999/100, 2⟩ : CartItem)] :=
  ⟨by decide,
    claim6_addItem_nonpositive_noop _ _ (by decide) (by decide)⟩

/-- C7: PurchaseHistory is append-only and never merges: `recordPurchase`
appends one entry at the end (even when the same id is already present the
count of entries with that id grows by one rather than merging), and
`recordPurchases` appends every given record in order, so the size grows by
exactly the number of records given. -/
theorem claim7_history_append_only (h : List PurchaseRecord)
    (r : PurchaseRecord) (rs : List PurchaseRecord) :
    recordPurchase h r = h ++ [r] ∧
      (recordPurchase h r).length = h.length + 1 ∧
      ((recordPurchase h r).filter (fun stored => stored.id = r.id)).length =
        (h.filter (fun stored => stored.id = r.id)).length + 1 ∧
      recordPurchases h rs = h ++ rs ∧
      (recordPurchases h rs).length = h.length + rs.length := by
  refine ⟨rfl, by simp [recordPurchase], ?_, rfl, by simp [recordPurchases]⟩
  simp [recordPurchase, List.filter_append]

/-! ### Claim C1: cart uniqueness / merge invariant -/

/-- C1 (amended): starting from the empty Cart, after any sequence of
`addItem` calls the stored productIds are pairwise distinct, and for every
productId the matching entries are: none when every quantity added for it
was zero, and exactly one — carrying the sum of all quantities added for it,
reduced modulo 2^32 (the C++ `unsigned int` width) — as soon as at least one
added quantity was positive. -/
theorem claim1_cart_merge (adds : List CartItem)
    (hw : ∀ x ∈ adds, x.quantity < U32) :
    ((adds.foldl addItem []).map (fun x => x.productId)).Nodup ∧
      ∀ pid : Str,
        ((adds.foldl addItem []).filter (fun x => x.productId = pid)).map
            (fun x => x.quantity) =
          if ((adds.filter (fun x => x.productId = pid)).map
              (fun x => x.quantity)).sum = 0
          then []
          else [((adds.filter (fun x => x.productId = pid)).map
              (fun x => x.quantity)).sum % U32] := by
  revert hw
  induction adds using List.reverseRecOn with
  | nil =>
    intro _
    exact ⟨List.nodup_nil, fun pid => by simp⟩
  | append_singleton as a ih =>
    intro hw
    have hw' : ∀ x ∈ as, x.quantity < U32 :=
      fun x hx => hw x (List.mem_append_left _ hx)
    have hwa : a.quantity < U32 :=
      hw a (List.mem_append_right _ (List.mem_singleton_self a))
    obtain ⟨ihn, ihf⟩ := ih hw'
    have hfold : (as ++ [a]).foldl addItem [] =
        addItem (as.foldl addItem []) a := by
      rw [List.foldl_append]
      rfl
    constructor
    · rw [hfold]
      exact nodup_addItem _ a ihn
    · intro pid
      rw [hfold]
      by_cases hpid : pid = a.productId
      · subst hpid
        have hfa : (as ++ [a]).filter (fun x => x.productId = a.productId) =
            as.filter (fun x => x.productId = a.productId) ++ [a] := by
          rw [List.filter_append]
          simp
        have hprev := ihf a.productId
        rcases hF : (as.foldl addItem []).filter
            (fun x => x.productId = a.productId) with _ | ⟨e, rest⟩
        · rw [filter_addItem_same_nil _ _ hF]
          rw [hF] at hprev
          simp only [List.map_nil] at hprev
          have hSum : ((as.filter (fun x => x.productId = a.productId)).map
              (fun x => x.quantity)).sum = 0 := by
            by_contra hS0
            rw [if_neg hS0] at hprev
            exact List.noConfusion hprev
          rw [hfa, List.map_append, List.sum_append]
          simp only [List.map_cons, List.map_nil, List.sum_cons, List.sum_nil,
            add_zero]
          rw [hSum, zero_add]
          by_cases hq : 0 < a.quantity
          · rw [if_pos hq, if_neg (Nat.pos_iff_ne_zero.mp hq)]
            simp only [List.map_cons, List.map_nil]
            rw [Nat.mod_eq_of_lt hwa]
          · have h0 : a.quantity = 0 := Nat.eq_zero_of_not_pos hq
            rw [if_neg hq, h0, if_pos rfl]
            simp
        · rw [filter_addItem_same_cons _ _ _ _ hF]
          rw [hF] at hprev
          simp only [List.map_cons] at hprev
          have hS : ((as.filter (fun x => x.productId = a.productId)).map
              (fun x => x.quantity)).sum ≠ 0 := by
            intro hS0
            rw [if_pos hS0] at hprev
            exact List.noConfusion hprev
          rw [if_neg hS] at hprev
          obtain ⟨he, hrest⟩ := List.cons.inj hprev
          rw [hfa, List.map_append, List.sum_append]
          simp only [List.map_cons, List.map_nil, List.sum_cons, List.sum_nil,
            add_zero]
          have hS2 : ((as.filter (fun x => x.productId = a.productId)).map
              (fun x => x.quantity)).sum + a.quantity ≠ 0 := by
            omega
          rw [if_neg hS2]
          rw [hrest, he, Nat.mod_add_mod]
      · rw [filter_addItem_ne _ a pid hpid]
        have hfa : (as ++ [a]).filter (fun x => x.productId = pid) =
            as.filter (fun x => x.productId = pid) := by
          rw [List.filter_append]
          have : a.productId ≠ pid := fun h => hpid h.symm
          simp [this]
        rw [hfa]
        exact ihf pid

theorem claim1_witness :
    (∀ x ∈ demoAdds, x.quantity < U32) ∧
      (((demoAdds.foldl addItem []).filter
          (fun x => x.productId = "ITEM001".data)).map (fun x => x.quantity) =
        if ((demoAdds.filter (fun x => x.productId = "ITEM001".data)).map
            (fun x => x.quantity)).sum = 0
        then []
        else [((demoAdds.filter (fun x => x.productId = "ITEM001".data)).map
            (fun x => x.quantity)).sum % U32]) :=
  ⟨by decide, (claim1_cart_merge demoAdds (by decide)).2 "ITEM001".data⟩

/-- C1 counterexample to the claim as stated: the productId "P" is added
twice (both times with quantity 0, which C++ `unsigned int` admits as the
only representation of "≤ 0"), yet the resulting Cart holds no entry at all
for it — not "exactly one entry whose quantity equals the sum of all
quantities added". -/
theorem claim1_counterexample :
    (([⟨"P".data, "N".data, 1, 0⟩,
        ⟨"P".data, "N".data, 1, 0⟩] : List CartItem).foldl addItem [] = []) ∧
      ((([⟨"P".data, "N".data, 1, 0⟩,
          ⟨"P".data, "N".data, 1, 0⟩] : List CartItem).filter
          (fun x => x.productId = "P".data)).length = 2) := by
  decide

/-! ### Lemmas for updateQuantity / removeItem -/

/-- Erasing an absent productId keeps the cart intact. -/
theorem eraseAll_of_none (c : List CartItem) (pid : Str)
    (h : findItem c pid = none) : eraseAll c pid = c := by
  induction c with
  | nil => rfl
  | cons e rest ih =>
    rw [findItem_eq_none_iff] at h
    have he : e.productId ≠ pid := h e (List.mem_cons_self e rest)
    rw [eraseAll, if_neg he]
    rw [findItem_eq_none_iff] at ih
    rw [ih (fun x hx => h x (List.mem_cons_of_mem e hx))]

/-- Erasing a present productId strictly shrinks the cart. -/
theorem eraseAll_length_lt (c : List CartItem) (pid : Str) (e : CartItem)
    (h : findItem c pid = some e) : (eraseAll c pid).length < c.length := by
  induction c with
  | nil => simp [findItem] at h
  | cons x rest ih =>
    by_cases hx : x.productId = pid
    · rw [eraseAll, if_pos hx]
      calc (eraseAll rest pid).length ≤ rest.length := by
            clear ih h
            induction rest with
            | nil => simp [eraseAll]
            | cons y ys ihy =>
              by_cases hy : y.productId = pid <;>
                simp [eraseAll, hy] <;> omega
        _ < (x :: rest).length := by simp
    · rw [findItem, if_neg hx] at h
      rw [eraseAll, if_neg hx]
      simpa using ih h

/-- The helper `setQty` rewrites exactly the entry `findItem` would return. -/
theorem findItem_setQty (c : List CartItem) (pid : Str) (q : Nat) :
    findItem (setQty c pid q) pid =
      (findItem c pid).map (fun e => { e with quantity := q }) := by
  induction c with
  | nil => rfl
  | cons e rest ih =>
    by_cases h : e.productId = pid
    · simp [setQty, findItem, h]
    · simp [setQty, findItem, h, ih]

/-! ### Claim C2 -/

/-- C2: `updateQuantity(pid, 0)` returns the same state and boolean as
`removeItem(pid)`; `updateQuantity` returns false and leaves the cart
unchanged exactly when `pid` is absent; and on a present entry with a
positive quantity it assigns the quantity exactly and returns true. -/
theorem claim2_updateQuantity_spec (c : List CartItem) (pid : Str) :
    updateQuantity c pid 0 = removeItem c pid ∧
      (findItem c pid = none ↔ ∀ q, updateQuantity c pid q = (c, false)) ∧
      (∀ q e, findItem c pid = some e → 0 < q →
        updateQuantity c pid q = (setQty c pid q, true) ∧
        findItem (setQty c pid q) pid = some { e with quantity := q }) := by
  refine ⟨?_, ⟨?_, ?_⟩, ?_⟩
  · rcases hf : findItem c pid with _ | e
    · rw [updateQuantity, hf]
      rw [removeItem]
      simp [eraseAll_of_none c pid hf]
    · rw [updateQuantity, hf]
      simp only [if_pos rfl]
      rw [removeItem]
      have hlt := eraseAll_length_lt c pid e hf
      simp [Nat.ne_of_lt hlt]
  · intro hf q
    rw [updateQuantity, hf]
  · intro hall
    rcases hf : findItem c pid with _ | e
    · rfl
    · have h1 := hall 1
      rw [updateQuantity, hf] at h1
      simp at h1
  · intro q e hf hq
    refine ⟨?_, ?_⟩
    · rw [updateQuantity, hf, if_neg (Nat.pos_iff_ne_zero.mp hq)]
    · rw [findItem_setQty, hf]
      rfl

theorem claim2_witness :
    updateQuantity [(⟨"A".data, "a".data, 1, 5⟩ : CartItem)] "A".data 0 =
        removeItem [(⟨"A".data, "a".data, 1, 5⟩ : CartItem)] "A".data ∧
      updateQuantity [(⟨"A".data, "a".data, 1, 5⟩ : CartItem)] "A".data 7 =
        (setQty [(⟨"A".data, "a".data, 1, 5⟩ : CartItem)] "A".data 7, true) ∧
      findItem (setQty [(⟨"A".data, "a".data, 1, 5⟩ : CartItem)] "A".data 7)
          "A".data = some ⟨"A".data, "a".data, 1, 7⟩ :=
  ⟨(claim2_updateQuantity_spec _ _).1,
    ((claim2_updateQuantity_spec _ _).2.2 7 ⟨"A".data, "a".data, 1, 5⟩
        (by decide) (by decide)).1,
    ((claim2_updateQuantity_spec _ _).2.2 7 ⟨"A".data, "a".data, 1, 5⟩
        (by decide) (by decide)).2⟩

/-! ### Claim C4

`SettingsService::validatePassword` has no upper length bound, but the
repository's own test suite (tests/settings_tests.cpp, section "Invalid
passwords") requires a 101-character password to be rejected with an error
mentioning "100".  The code accepts it. -/

/-- C4: the code path under test accepts a 101-character password (valid,
value returned unchanged, empty error), contradicting the claimed (and
test-asserted) 100-character upper bound. -/
theorem claim4_validatePassword_accepts_101 :
    validatePassword (List.replicate 101 'a') =
      ⟨true, List.replicate 101 'a', []⟩ := by
  decide

/-! ### Claim C9 -/

/-- C9: `purchaseItem` is atomic for the balance: every failing outcome
(item not found, unavailable, or insufficient funds) reports failure and
returns the balance unchanged, and a success deducts exactly the item's
price. -/
theorem claim9_purchase_atomic (inv : List Item) (itemId : Str) (b : ℚ) :
    (findInvItem inv itemId = none →
        purchaseItem inv itemId b = (⟨false, "Item not found".data, b⟩, b)) ∧
      (∀ it, findInvItem inv itemId = some it → it.available = false →
        purchaseItem inv itemId b = (⟨false, "Item out of stock".data, b⟩, b)) ∧
      (∀ it, findInvItem inv itemId = some it → it.available = true →
        b < it.price →
        purchaseItem inv itemId b =
          (⟨false, "Insufficient funds".data, b⟩, b)) ∧
      (∀ it, findInvItem inv itemId = some it → it.available = true →
        it.price ≤ b →
        purchaseItem inv itemId b =
          (⟨true, "Purchase successful".data, b - it.price⟩, b - it.price)) ∧
      ((purchaseItem inv itemId b).1.success = false →
        (purchaseItem inv itemId b).2 = b ∧
          (purchaseItem inv itemId b).1.remainingBalance = b) ∧
      ((purchaseItem inv itemId b).1.success = true →
        ∃ it, findInvItem inv itemId = some it ∧
          (purchaseItem inv itemId b).2 = b - it.price) := by
  rcases hf : findInvItem inv itemId with _ | it
  · have hres : purchaseItem inv itemId b =
        (⟨false, "Item not found".data, b⟩, b) := by
      rw [purchaseItem, hf]
    refine ⟨fun _ => hres, fun it hit => ?_, fun it hit => ?_,
      fun it hit => ?_, fun _ => ?_, fun hs => ?_⟩
    · simp at hit
    · simp at hit
    · simp at hit
    · rw [hres]
      exact ⟨rfl, rfl⟩
    · rw [hres] at hs
      simp at hs
  · by_cases ha : it.available = true
    · by_cases hp : it.price ≤ b
      · have hres : purchaseItem inv itemId b =
            (⟨true, "Purchase successful".data, b - it.price⟩, b - it.price) := by
          rw [purchaseItem, hf]
          simp [ha, hasSufficientFunds, hp, processPayment]
        refine ⟨fun hn => ?_, fun it2 hit2 hav => ?_, fun it2 hit2 _ hlt => ?_,
          fun it2 hit2 _ _ => ?_, fun hs => ?_, fun _ => ⟨it, rfl, by simp [hres]⟩⟩
        · simp at hn
        · obtain rfl : it = it2 := by injection hit2
          rw [ha] at hav
          exact Bool.noConfusion hav
        · obtain rfl : it = it2 := by injection hit2
          exact absurd hp (not_le.mpr hlt)
        · obtain rfl : it = it2 := by injection hit2
          exact hres
        · rw [hres] at hs
          simp at hs
      · have hres : purchaseItem inv itemId b =
            (⟨false, "Insufficient funds".data, b⟩, b) := by
          rw [purchaseItem, hf]
          simp [ha, hasSufficientFunds, hp]
        refine ⟨fun hn => ?_, fun it2 hit2 hav => ?_, fun it2 hit2 _ _ => ?_,
          fun it2 hit2 _ hle => ?_, fun _ => ?_, fun hs => ?_⟩
        · simp at hn
        · obtain rfl : it = it2 := by injection hit2
          rw [ha] at hav
          exact Bool.noConfusion hav
        · exact hres
        · obtain rfl : it = it2 := by injection hit2
          exact absurd hle hp
        · rw [hres]
          exact ⟨rfl, rfl⟩
        · rw [hres] at hs
          simp at hs
    · have ha2 : it.available = false := by
        cases hav : it.available
        · rfl
        · exact absurd hav ha
      have hres : purchaseItem inv itemId b =
          (⟨false, "Item out of stock".data, b⟩, b) := by
        rw [purchaseItem, hf]
        simp [ha2]
      refine ⟨fun hn => ?_, fun it2 hit2 _ => ?_, fun it2 hit2 hav _ => ?_,
        fun it2 hit2 hav _ => ?_, fun _ => ?_, fun hs => ?_⟩
      · simp at hn
      · exact hres
      · obtain rfl : it = it2 := by injection hit2
        exact absurd hav ha
      · obtain rfl : it = it2 := by injection hit2
        exact absurd hav ha
      · rw [hres]
        exact ⟨rfl, rfl⟩
      · rw [hres] at hs
        simp at hs

theorem claim9_witness :
    purchaseItem defaultInventory "ITEM002".data 50 =
        (⟨true, "Purchase successful".data, 50 - 2999/100⟩, 50 - 2999/100) ∧
      purchaseItem defaultInventory "ITEM004".data 5000 =
        (⟨false, "Item out of stock".data, 5000⟩, 5000) ∧
      purchaseItem defaultInventory "NOPE".data 10 =
        (⟨false, "Item not found".data, 10⟩, 10) :=
  ⟨(claim9_purchase_atomic defaultInventory "ITEM002".data 50).2.2.2.1
      ⟨"ITEM002".data, "Mouse".data, 2999/100, true⟩ rfl rfl (by norm_num),
    (claim9_purchase_atomic defaultInventory "ITEM004".data 5000).2.1
      ⟨"ITEM004".data, "Monitor".data, 29999/100, false⟩ rfl rfl,
    (claim9_purchase_atomic defaultInventory "NOPE".data 10).1 rfl⟩

/-! ### Claim C10 -/

/-- C10: failed logins with non-empty credentials are indistinguishable:
an unknown username and a known username with a wrong password both yield
success=false with the identical message "Invalid username or password"
(and no username echo), so `authenticate` does not reveal whether the
username exists. -/
theorem claim10_auth_indistinguishable (u1 p1 u2 p2 : Str)
    (hu1 : u1 ≠ []) (hp1 : p1 ≠ []) (hu2 : u2 ≠ []) (hp2 : p2 ≠ [])
    (hunknown : findUser validUsers u1 = none)
    (hwrong : ∃ usr, findUser validUsers u2 = some usr ∧ usr.password ≠ p2) :
    authenticate u1 p1 = ⟨false, "Invalid username or password".data, []⟩ ∧
      authenticate u2 p2 = ⟨false, "Invalid username or password".data, []⟩ ∧
      authenticate u1 p1 = authenticate u2 p2 := by
  rcases hwrong with ⟨usr, hfind, hpw⟩
  have h1 : authenticate u1 p1 = ⟨false, "Invalid username or password".data, []⟩ := by
    rw [authenticate]
    simp only [List.isEmpty_iff]
    rw [if_neg hu1, if_neg hp1, hunknown]
  have h2 : authenticate u2 p2 = ⟨false, "Invalid username or password".data, []⟩ := by
    rw [authenticate]
    simp only [List.isEmpty_iff]
    rw [if_neg hu2, if_neg hp2, hfind]
    simp [checkPassword, hpw]
  exact ⟨h1, h2, h1.trans h2.symm⟩

theorem claim10_witness :
    authenticate "nosuchuser".data "anypass".data =
        ⟨false, "Invalid username or password".data, []⟩ ∧
      authenticate "admin".data "wrongpass".data =
        ⟨false, "Invalid username or password".data, []⟩ ∧
      authenticate "nosuchuser".data "anypass".data =
        authenticate "admin".data "wrongpass".data :=
  claim10_auth_indistinguishable "nosuchuser".data "anypass".data
    "admin".data "wrongpass".data (by decide) (by decide) (by decide)
    (by decide) (by decide)
    ⟨⟨"admin".data, "admin123".data⟩, by decide, by decide⟩

/-! ### Substring lemmas and claim C3 -/

theorem begMatch_iff (n : Str) : ∀ h : Str,
    (begMatch n h = true ↔ ∃ r, h = n ++ r) := by
  induction n with
  | nil =>
    intro h
    exact ⟨fun _ => ⟨h, rfl⟩, fun _ => rfl⟩
  | cons c ns ih =>
    intro h
    cases h with
    | nil =>
      simp [begMatch]
    | cons x xs =>
      simp only [begMatch, Bool.and_eq_true, decide_eq_true_eq]
      constructor
      · rintro ⟨hc, hb⟩
        rcases (ih xs).1 hb with ⟨r, hr⟩
        exact ⟨r, by simp [hc, hr]⟩
      · rintro ⟨r, hr⟩
        rw [List.cons_append] at hr
        rcases List.cons.inj hr with ⟨h1, h2⟩
        exact ⟨h1.symm, (ih xs).2 ⟨r, h2⟩⟩

theorem hasSub_iff (n : Str) : ∀ h : Str,
    (hasSub n h = true ↔ SubStr n h) := by
  intro h
  induction h with
  | nil =>
    rw [hasSub]
    constructor
    · intro he
      rw [List.isEmpty_iff] at he
      exact ⟨[], [], by simp [he]⟩
    · rintro ⟨l, r, hr⟩
      rcases List.append_eq_nil.mp (List.append_eq_nil.mp hr.symm).1 with ⟨-, hn⟩
      simp [hn]
  | cons x xs ih =>
    rw [hasSub]
    simp only [Bool.or_eq_true, begMatch_iff, ih]
    constructor
    · rintro (⟨r, hr⟩ | ⟨l, r, hr⟩)
      · exact ⟨[], r, by simp [hr]⟩
      · exact ⟨x :: l, r, by simp [hr]⟩
    · rintro ⟨l, r, hr⟩
      cases l with
      | nil =>
        exact Or.inl ⟨r, by simpa using hr⟩
      | cons y ys =>
        simp only [List.cons_append] at hr
        rcases List.cons.inj hr with ⟨-, h2⟩
        exact Or.inr ⟨ys, r, h2⟩

theorem catalogMatch_iff (item : CatalogItem) (nq : Str) :
    catalogMatch item nq = true ↔
      SubStr nq (toLowerStr item.id) ∨ SubStr nq (toLowerStr item.name) ∨
        SubStr nq (toLowerStr item.description) := by
  simp [catalogMatch, Bool.or_eq_true, hasSub_iff, or_assoc]

/-- C3: `search` trims and lowercases the query; an empty normalized query
yields the empty result (not the whole catalog); otherwise the result is
exactly the catalog items whose id, name or description contains the
normalized query as a case-insensitive substring, in catalog definition
order (a sublist of the catalog: no ranking, duplication or reordering). -/
theorem claim3_search_spec (q : Str) :
    List.Sublist (searchCatalog q) CATALOG ∧
      (trim q = [] → searchCatalog q = []) ∧
      (trim q ≠ [] →
        ∀ item, item ∈ searchCatalog q ↔
          item ∈ CATALOG ∧
            (SubStr (toLowerStr (trim q)) (toLowerStr item.id) ∨
              SubStr (toLowerStr (trim q)) (toLowerStr item.name) ∨
              SubStr (toLowerStr (trim q)) (toLowerStr item.description))) := by
  by_cases he : (trim q).isEmpty
  · have hempty : searchCatalog q = [] := by
      rw [searchCatalog]
      simp [he]
    rw [List.isEmpty_iff] at he
    exact ⟨hempty ▸ List.nil_sublist _, fun _ => hempty, fun hne => absurd he hne⟩
  · have hres : searchCatalog q =
        CATALOG.filter (fun item => catalogMatch item (toLowerStr (trim q))) := by
      rw [searchCatalog]
      simp [he]
    refine ⟨hres ▸ List.filter_sublist _, fun h0 => ?_, fun _ item => ?_⟩
    · rw [List.isEmpty_iff] at he
      exact absurd h0 he
    · rw [hres, List.mem_filter, catalogMatch_iff]

theorem claim3_witness :
    searchCatalog "   ".data = [] ∧
      ((⟨"ITEM001".data, "Laptop Pro 15".data, 99999/100,
          "High-performance laptop with 16GB RAM and SSD".data⟩ : CatalogItem) ∈
          searchCatalog "  Laptop  ".data ↔
        (⟨"ITEM001".data, "Laptop Pro 15".data, 99999/100,
            "High-performance laptop with 16GB RAM and SSD".data⟩ : CatalogItem) ∈
            CATALOG ∧
          (SubStr (toLowerStr (trim "  Laptop  ".data))
              (toLowerStr "ITEM001".data) ∨
            SubStr (toLowerStr (trim "  Laptop  ".data))
              (toLowerStr "Laptop Pro 15".data) ∨
            SubStr (toLowerStr (trim "  Laptop  ".data))
              (toLowerStr "High-performance laptop with 16GB RAM and SSD".data))) :=
  ⟨(claim3_search_spec "   ".data).2.1 (by decide),
    (claim3_search_spec "  Laptop  ".data).2.2 (by decide)
      ⟨"ITEM001".data, "Laptop Pro 15".data, 99999/100,
        "High-performance laptop with 16GB RAM and SSD".data⟩⟩

/-! ### Email validation: claim C5 -/

theorem emailChar_notAt (ch : Char) (h : emailChar ch = true) :
    notAt ch = true := by
  simp only [emailChar, Bool.and_eq_true, Bool.not_eq_true', decide_eq_false_iff_not] at h
  simp [notAt, h.2]

theorem takeWhile_all_append (p : Char → Bool) (a : Str) (y : Char) (rest : Str)
    (ha : ∀ x ∈ a, p x = true) (hy : p y = false) :
    (a ++ y :: rest).takeWhile p = a ∧ (a ++ y :: rest).dropWhile p = y :: rest := by
  induction a with
  | nil => simp [List.takeWhile_cons, List.dropWhile_cons, hy]
  | cons x xs ih =>
    have hx : p x = true := ha x (List.mem_cons_self x xs)
    have ih2 := ih (fun z hz => ha z (List.mem_cons_of_mem x hz))
    simp [List.takeWhile_cons, List.dropWhile_cons, hx, ih2.1, ih2.2]

theorem dropWhile_head_false (p : Char → Bool) : ∀ (l : Str) (d : Char) (r : Str),
    l.dropWhile p = d :: r → p d = false := by
  intro l
  induction l with
  | nil =>
    intro d r h
    simp [List.dropWhile] at h
  | cons x xs ih =>
    intro d r h
    rw [List.dropWhile_cons] at h
    by_cases hx : p x = true
    · rw [if_pos hx] at h
      exact ih d r h
    · rw [if_neg hx] at h
      rcases List.cons.inj h with ⟨h1, -⟩
      rw [← h1]
      exact Bool.eq_false_iff.mpr hx

theorem emailOk_iff (s : Str) : emailOk s = true ↔ EmailShape s := by
  constructor
  · intro hok
    rw [emailOk] at hok
    cases hd : s.dropWhile notAt with
    | nil =>
      rw [hd] at hok
      simp at hok
    | cons d r =>
      rw [hd] at hok
      simp only [Bool.and_eq_true, Bool.not_eq_true', List.all_eq_true] at hok
      obtain ⟨⟨⟨⟨hane, haall⟩, hrne⟩, hrall⟩, hdot⟩ := hok
      have hane2 : s.takeWhile notAt ≠ [] := by
        intro hh
        rw [hh] at hane
        simp at hane
      have hrne2 : r ≠ [] := by
        intro hh
        rw [hh] at hrne
        simp at hrne
      have hs : s = s.takeWhile notAt ++ d :: r := by
        conv_lhs => rw [← List.takeWhile_append_dropWhile notAt s, hd]
      have hdat : d = '@' := by
        have := dropWhile_head_false notAt s d r hd
        simp only [notAt, decide_eq_false_iff_not, not_not] at this
        exact this
      rcases List.exists_cons_of_ne_nil hrne2 with ⟨h0, t, ht⟩
      rcases t.eq_nil_or_concat with rfl | ⟨tinit, z, rfl⟩
      · rw [ht] at hdot
        simp at hdot
      · rw [List.concat_eq_append] at ht
        rw [ht] at hdot
        simp only [List.drop_succ_cons, List.drop_zero, List.dropLast_concat]
          at hdot
        have hdotmem : '.' ∈ tinit := List.mem_of_elem_eq_true hdot
        rcases List.append_of_mem hdotmem with ⟨u, v, huv⟩
        subst huv
        refine ⟨s.takeWhile notAt, h0 :: u, v ++ [z], hane2, by simp, by simp,
          haall, ?_, ?_, ?_⟩
        · intro ch hch
          apply hrall
          rw [ht]
          rcases List.mem_cons.mp hch with rfl | hchu
          · exact List.mem_cons_self _ _
          · apply List.mem_cons_of_mem
            apply List.mem_append_left
            exact List.mem_append_left _ hchu
        · intro ch hch
          apply hrall
          rw [ht]
          apply List.mem_cons_of_mem
          rcases List.mem_append.mp hch with hchv | hchz
          · apply List.mem_append_left
            apply List.mem_append_right
            exact List.mem_cons_of_mem _ hchv
          · exact List.mem_append_right _ hchz
        · conv_lhs => rw [hs]
          rw [hdat, ht]
          simp
  · rintro ⟨a, b, c, ha, hb, hc, hae, hbe, hce, rfl⟩
    have hsplit := takeWhile_all_append notAt a '@' (b ++ '.' :: c)
      (fun x hx => emailChar_notAt x (hae x hx)) (by simp [notAt])
    rw [emailOk]
    rw [hsplit.2]
    simp only [hsplit.1]
    simp only [Bool.and_eq_true, Bool.not_eq_true', List.all_eq_true]
    refine ⟨⟨⟨⟨by simpa using ha, hae⟩, by simp [hb]⟩, ?_⟩, ?_⟩
    · intro x hx
      rcases List.mem_append.mp hx with hxb | hxr
      · exact hbe _ hxb
      · rcases List.mem_cons.mp hxr with rfl | hxr
        · decide
        · exact hce _ hxr
    · rcases List.exists_cons_of_ne_nil hb with ⟨b0, tb, rfl⟩
      rcases List.exists_cons_of_ne_nil hc with ⟨c0, tc, rfl⟩
      rw [List.cons_append, List.drop_succ_cons, List.drop_zero]
      rw [List.dropLast_append_of_ne_nil _ (by simp)]
      refine List.elem_eq_true_of_mem ?_
      refine List.mem_append_right _ ?_
      rw [List.dropLast_cons₂]
      exact List.mem_cons_self _ _

/-- C5: `validateEmail` fails with "required" exactly on the empty input;
otherwise it trims and lowercases, succeeds with the normalized value when
that value matches the local@domain.tld shape and fails with "invalid
format" when it does not; it never returns both a value and an error. -/
theorem claim5_validateEmail_spec (e : Str) :
    (e = [] → validateEmail e = ⟨false, [], "Email is required".data⟩) ∧
      (e ≠ [] → EmailShape (toLowerStr (trim e)) →
        validateEmail e = ⟨true, toLowerStr (trim e), []⟩) ∧
      (e ≠ [] → ¬ EmailShape (toLowerStr (trim e)) →
        validateEmail e = ⟨false, [], "Invalid email format".data⟩) ∧
      ((validateEmail e).valid = true → (validateEmail e).error = []) ∧
      ((validateEmail e).valid = false → (validateEmail e).value = []) := by
  by_cases h0 : e = []
  · subst h0
    exact ⟨fun _ => rfl, fun hne _ => absurd rfl hne, fun hne _ => absurd rfl hne,
      fun h => absurd h (by decide), fun _ => rfl⟩
  · have hne : e.isEmpty = false := by
      rw [← Bool.not_eq_true, List.isEmpty_iff]
      exact h0
    by_cases hok : emailOk (toLowerStr (trim e)) = true
    · have hres : validateEmail e = ⟨true, toLowerStr (trim e), []⟩ := by
        rw [validateEmail]
        simp [hne, hok]
      exact ⟨fun hh => absurd hh h0, fun _ _ => hres,
        fun _ hsh => absurd ((emailOk_iff _).1 hok) hsh,
        fun _ => by rw [hres], fun hv => by rw [hres] at hv; simp at hv⟩
    · have hres : validateEmail e = ⟨false, [], "Invalid email format".data⟩ := by
        rw [validateEmail]
        simp [hne, Bool.eq_false_iff.mpr hok]
      exact ⟨fun hh => absurd hh h0,
        fun _ hsh => absurd ((emailOk_iff _).2 hsh) hok,
        fun _ _ => hres,
        fun hv => by rw [hres] at hv; simp at hv, fun _ => by rw [hres]⟩

theorem not_emailShape_of_false (s : Str) (h : emailOk s = false) :
    ¬ EmailShape s :=
  fun hs => by rw [(emailOk_iff s).2 hs] at h; exact Bool.noConfusion h

theorem claim5_witness :
    validateEmail "  Test@Example.com  ".data =
        ⟨true, "test@example.com".data, []⟩ ∧
      validateEmail "@example.com".data =
        ⟨false, [], "Invalid email format".data⟩ :=
  ⟨(claim5_validateEmail_spec "  Test@Example.com  ".data).2.1 (by decide)
      ⟨"test".data, "example".data, "com".data, by decide, by decide, by decide,
        by decide, by decide, by decide, by decide⟩,
    (claim5_validateEmail_spec "@example.com".data).2.2.1 (by decide)
      (not_emailShape_of_false _ (by decide))⟩

/-- C8: `getTotal` equals the sum of price × quantity over all entries, and
is 0 on the empty cart. -/
theorem claim8_getTotal_sum (c : List CartItem) :
    getTotal c = (c.map (fun e => e.price * (e.quantity : ℚ))).sum ∧
      getTotal [] = 0 := by
  constructor
  · rw [getTotal, foldl_add_subtotal, zero_add]
    rfl
  · rfl

end Backend
